import Mathlib

/-!
Shallow embedding of the geographic tiling and place-discovery core of the
google-places-review-insights repository: `src/geo.py`,
`src/places_collector.py`, `src/text_search_collector.py`, `src/pipeline.py`
and `app.py`.  Python floats are modelled as real numbers, fallible
collection calls as `Except`, and the external HTTP client as a stream of
page responses indexed by request number.
-/

open Real

/-- Mean Earth radius in meters (`EARTH_RADIUS_M` in `src/geo.py` and
`src/text_search_collector.py`). -/
noncomputable def EARTH_RADIUS_M : ℝ := 6371000.0

/-- `miles_to_meters` from `src/geo.py`. -/
noncomputable def miles_to_meters (mi : ℝ) : ℝ := mi * 1609.344

/-- `meters_to_lat_deg` from `src/geo.py`. -/
noncomputable def meters_to_lat_deg (m : ℝ) : ℝ :=
  (m / EARTH_RADIUS_M) * (180 / π)

/-- `meters_to_lon_deg` from `src/geo.py`; `math.radians x` is `x * π / 180`. -/
noncomputable def meters_to_lon_deg (m : ℝ) (at_lat_deg : ℝ) : ℝ :=
  (m / (EARTH_RADIUS_M * max 0.000001 (Real.cos (at_lat_deg * (π / 180))))) * (180 / π)

/-- One axis of the grid `while` loops of `generate_tile_centers`
(`src/geo.py` lines 38-48): the iterates `lo, lo + step, ...` for as long as
they stay `≤ hi`.  The source loop makes no progress when `step ≤ 0` (see
claim C10); this total model returns `[]` in that case, and agrees with the
source whenever `0 < step`. -/
noncomputable def gridVals (lo hi step : ℝ) : List ℝ :=
  if h : 0 < step ∧ lo ≤ hi then lo :: gridVals (lo + step) hi step
  else []
termination_by (⌊(hi - lo) / step⌋ + 1).toNat
decreasing_by
  obtain ⟨hs, hle⟩ := h
  have hs' : step ≠ 0 := ne_of_gt hs
  have h1 : (hi - (lo + step)) / step = (hi - lo) / step - 1 := by
    field_simp
    ring
  have h2 : (0 : ℤ) ≤ ⌊(hi - lo) / step⌋ :=
    Int.floor_nonneg.mpr (div_nonneg (by linarith) hs.le)
  have h3 : ⌊(hi - lo) / step - 1⌋ = ⌊(hi - lo) / step⌋ - 1 := by
    have h4 := Int.floor_sub_int ((hi - lo) / step) 1
    simpa using h4
  simp only [h1, h3]
  omega

theorem gridVals_cons (lo hi step : ℝ) (hs : 0 < step) (hle : lo ≤ hi) :
    gridVals lo hi step = lo :: gridVals (lo + step) hi step := by
  rw [gridVals]
  simp [hs, hle]

theorem gridVals_nil (lo hi step : ℝ) (h : ¬(0 < step ∧ lo ≤ hi)) :
    gridVals lo hi step = [] := by
  rw [gridVals]
  simp only [dif_neg h]

/-- The squared planar projected-meters distance of the tile-membership test
(`src/geo.py` lines 43-45): `dy` and `dx` are the latitude/longitude offsets
converted to meters, using `cos` at the original center's latitude. -/
noncomputable def planar_dist_sq (lat lon cur_lat cur_lon : ℝ) : ℝ :=
  let dy := (cur_lat - lat) * (π / 180) * EARTH_RADIUS_M
  let dx := (cur_lon - lon) * (π / 180) * EARTH_RADIUS_M * Real.cos (lat * (π / 180))
  dx * dx + dy * dy

/-- Python `round(x, 5)` as a scaled integer: two reals coincide at 5-decimal
precision exactly when scaling by `10^5` and rounding gives the same integer
(`src/geo.py` line 55). -/
noncomputable def round5 (x : ℝ) : ℤ := round (x * 100000)

/-- The rounded dict key `(round(a, 5), round(b, 5))` of `src/geo.py` line 55. -/
noncomputable def key5 (p : ℝ × ℝ) : ℤ × ℤ := (round5 p.1, round5 p.2)

/-- Python dict assignment `uniq[key] = value` on an insertion-ordered
association list: an existing key keeps its position but its value is
replaced; a fresh key is appended. -/
noncomputable def dictUpd (m : List ((ℤ × ℤ) × (ℝ × ℝ))) (k : ℤ × ℤ) (v : ℝ × ℝ) :
    List ((ℤ × ℤ) × (ℝ × ℝ)) :=
  if k ∈ m.map Prod.fst then m.map (fun e => if e.1 = k then (k, v) else e)
  else m ++ [(k, v)]

/-- The rounding deduplication of `src/geo.py` lines 52-56: build the dict
`uniq` keyed by 5-decimal-rounded coordinates and return `list(uniq.values())`. -/
noncomputable def dedupRound (xs : List (ℝ × ℝ)) : List (ℝ × ℝ) :=
  (xs.foldl (fun m p => dictUpd m (key5 p) p) []).map Prod.snd

/-- `generate_tile_centers` from `src/geo.py`. -/
noncomputable def generate_tile_centers (lat lon radius_m tile_radius_m : ℝ) :
    List (ℝ × ℝ) :=
  if radius_m ≤ tile_radius_m then [(lat, lon)]
  else
    let step_m := tile_radius_m * 1.5
    let dlat := meters_to_lat_deg step_m
    let dlon := meters_to_lon_deg step_m lat
    let lat_extent := meters_to_lat_deg radius_m
    let lon_extent := meters_to_lon_deg radius_m lat
    let r2 := radius_m * radius_m
    let centers :=
      (gridVals (lat - lat_extent) (lat + lat_extent) dlat).flatMap fun cur_lat =>
        ((gridVals (lon - lon_extent) (lon + lon_extent) dlon).filter fun cur_lon =>
          decide (planar_dist_sq lat lon cur_lat cur_lon ≤ r2)).map fun cur_lon =>
          (cur_lat, cur_lon)
    dedupRound (centers ++ [(lat, lon)])

/-- `haversine_m` from `src/text_search_collector.py` (also duplicated in
`app.py`): the haversine great-circle distance in meters. -/
noncomputable def haversine_m (lat1 lon1 lat2 lon2 : ℝ) : ℝ :=
  let phi1 := lat1 * (π / 180)
  let phi2 := lat2 * (π / 180)
  let dphi := (lat2 - lat1) * (π / 180)
  let dlambda := (lon2 - lon1) * (π / 180)
  let a := Real.sin (dphi / 2) ^ 2 +
    Real.cos phi1 * Real.cos phi2 * Real.sin (dlambda / 2) ^ 2
  2 * EARTH_RADIUS_M * Real.arcsin (Real.sqrt a)

/-- One raw result item of a places response.  The nested Python access
`p.get("geometry", {}).get("location", {}) or {}` followed by
`geo.get("lat")` / `geo.get("lng")` collapses to the two optional
coordinate fields. -/
structure RawPlace where
  place_id : Option String
  name : Option String
  vicinity : Option String
  formatted_address : Option String
  geo_lat : Option ℝ
  geo_lng : Option ℝ
  types : List String

/-- One page response `{status, error_message?, results[], next_page_token?}`
returned by the external HTTP client for one request. -/
structure PageResponse where
  status : Option String
  error_message : Option String
  results : List RawPlace
  next_page_token : Option String

/-- The payload of the `RuntimeError` raised on a hard page failure: the
upstream status and message interpolated into the message string. -/
structure ApiError where
  status : Option String
  error_message : Option String
deriving DecidableEq

/-- Python truthiness of `data.get("next_page_token")`: a token continues
pagination only when it is present and non-empty (`if not token`). -/
def tokenTruthy : Option String → Bool
  | some s => s ≠ ""
  | none => false

/-- Status check of `src/places_collector.py` line 30 and
`src/text_search_collector.py` line 38: only `"OK"` and `"ZERO_RESULTS"` are
non-error statuses. -/
def goodStatus (st : Option String) : Prop :=
  st = some "OK" ∨ st = some "ZERO_RESULTS"

instance (st : Option String) : Decidable (goodStatus st) := by
  unfold goodStatus
  infer_instance

/-- The shared pagination loop of `nearby_search_tile`
(`src/places_collector.py` lines 26-46) and `text_search_pages`
(`src/text_search_collector.py` lines 34-52).  `fetch k` is the response the
external client returns to the `k`-th request of this call; the second
component of the result is the number of requests issued.  The loop raises
on a bad status, otherwise accumulates `results` and continues only while
the returned token is truthy and the incremented page counter is still
below the page cap. -/
def paginate_go (fetch : Nat → PageResponse) (maxPages : Nat) (page : Nat)
    (acc : List RawPlace) : Except ApiError (List RawPlace) × Nat :=
  let data := fetch page
  if goodStatus data.status then
    if h : tokenTruthy data.next_page_token = true ∧ page + 1 < maxPages then
      paginate_go fetch maxPages (page + 1) (acc ++ data.results)
    else (.ok (acc ++ data.results), page + 1)
  else (.error ⟨data.status, data.error_message⟩, page + 1)
termination_by maxPages - page
decreasing_by omega

/-- `nearby_search_tile` from `src/places_collector.py`, with the HTTP client
abstracted to the response stream `fetch`; the tile center, radius and
keyword only shape the request, not the control flow. -/
def nearby_search_tile (fetch : Nat → PageResponse) (maxPages : Nat) :
    Except ApiError (List RawPlace) × Nat :=
  paginate_go fetch maxPages 0 []

/-- `text_search_pages` from `src/text_search_collector.py`, identical
pagination logic with the text-search page cap. -/
def text_search_pages (fetch : Nat → PageResponse) (maxPages : Nat) :
    Except ApiError (List RawPlace) × Nat :=
  paginate_go fetch maxPages 0 []

/-- One canonical row produced by the tiled collector
(`src/places_collector.py` lines 72-79); coordinates stay optional because
the source copies `geo.get("lat")` / `geo.get("lng")` without checking them. -/
structure Place where
  place_id : String
  name : Option String
  vicinity : Option String
  lat : Option ℝ
  lon : Option ℝ
  types : String

/-- The row appended by `collect_places` for a kept raw result
(`src/places_collector.py` lines 72-79). -/
def mkPlace (p : RawPlace) (pid : String) : Place :=
  { place_id := pid
    name := p.name
    vicinity := p.vicinity
    lat := p.geo_lat
    lon := p.geo_lng
    types := String.intercalate "," p.types }

/-- The inner `for p in results` loop of `collect_places`
(`src/places_collector.py` lines 65-79): drop falsy or already-seen
place_ids, record the id as seen, and append the reduced row. -/
def nearbyLoop : List RawPlace → List String → List Place → List String × List Place
  | [], seen, acc => (seen, acc)
  | p :: rest, seen, acc =>
    match p.place_id with
    | none => nearbyLoop rest seen acc
    | some pid =>
      if pid = "" ∨ pid ∈ seen then nearbyLoop rest seen acc
      else nearbyLoop rest (pid :: seen) (acc ++ [mkPlace p pid])

/-- The pure merge/deduplication of `collect_places` over the per-tile raw
result lists, threading `seen` and `places` across tiles exactly as the
source's outer loop does. -/
def collect_merge (tileResults : List (List RawPlace)) : List Place :=
  (tileResults.foldl (fun st res => nearbyLoop res st.1 st.2) ([], [])).2

/-- `collect_places` from `src/places_collector.py`, one response stream per
tile center: each tile runs `nearby_search_tile`, a tile failure aborts the
whole collection, successful results flow through the merge loop. -/
def collect_places (tiles : List (Nat → PageResponse)) (maxPages : Nat)
    (seen : List String) (acc : List Place) : Except ApiError (List Place) :=
  match tiles with
  | [] => .ok acc
  | t :: rest =>
    match (nearby_search_tile t maxPages).1 with
    | .error e => .error e
    | .ok results =>
      let st := nearbyLoop results seen acc
      collect_places rest maxPages st.1 st.2

/-- Entry point of the tiled collection (`collect_places` with its empty
`seen` set and `places` list). -/
def collect_places_run (tiles : List (Nat → PageResponse)) (maxPages : Nat) :
    Except ApiError (List Place) :=
  collect_places tiles maxPages [] []

/-- One canonical row of the text-search collector
(`src/text_search_collector.py` lines 84-93); here the coordinates and the
distances are guaranteed present by the preceding checks. -/
structure TextPlace where
  place_id : String
  name : Option String
  vicinity : Option String
  lat : ℝ
  lon : ℝ
  types : String
  distance_m : ℝ
  distance_miles : ℝ

/-- Python `a or b` on two optional strings (used for
`p.get("formatted_address") or p.get("vicinity")`): the first operand wins
unless it is falsy (absent or empty). -/
def pyOr (a b : Option String) : Option String :=
  match a with
  | some s => if s = "" then b else some s
  | none => b

/-- The row appended by `collect_places_textsearch` for a kept raw result
(`src/text_search_collector.py` lines 84-93). -/
noncomputable def mkTextPlace (p : RawPlace) (pid : String) (plat plon dist_m : ℝ) :
    TextPlace :=
  { place_id := pid
    name := p.name
    vicinity := pyOr p.formatted_address p.vicinity
    lat := plat
    lon := plon
    types := String.intercalate "," p.types
    distance_m := dist_m
    distance_miles := dist_m / 1609.344 }

/-- The `for p in raw` loop of `collect_places_textsearch`
(`src/text_search_collector.py` lines 68-93): skip falsy or seen ids, skip
missing coordinates, skip results beyond the filter radius, and only then
mark the id as seen and append the row. -/
noncomputable def textLoop (c_lat c_lon filter_radius_m : ℝ) :
    List RawPlace → List String → List TextPlace → List TextPlace
  | [], _, acc => acc
  | p :: rest, seen, acc =>
    match p.place_id with
    | none => textLoop c_lat c_lon filter_radius_m rest seen acc
    | some pid =>
      if pid = "" ∨ pid ∈ seen then textLoop c_lat c_lon filter_radius_m rest seen acc
      else
        match p.geo_lat, p.geo_lng with
        | some plat, some plon =>
          if haversine_m c_lat c_lon plat plon > filter_radius_m then
            textLoop c_lat c_lon filter_radius_m rest seen acc
          else
            textLoop c_lat c_lon filter_radius_m rest (pid :: seen)
              (acc ++ [mkTextPlace p pid plat plon (haversine_m c_lat c_lon plat plon)])
        | _, _ => textLoop c_lat c_lon filter_radius_m rest seen acc

/-- The post-processing of `collect_places_textsearch` on the raw pages:
dedup/filter loop followed by `places.sort(key=lambda x: x["distance_m"])`
(`src/text_search_collector.py` lines 65-96). -/
noncomputable def processTextResults (raw : List RawPlace)
    (c_lat c_lon filter_radius_m : ℝ) : List TextPlace :=
  (textLoop c_lat c_lon filter_radius_m raw [] []).mergeSort
    fun a b => decide (a.distance_m ≤ b.distance_m)

/-- `collect_places_textsearch` from `src/text_search_collector.py`: fetch
the pages, then dedup, distance-filter and sort. -/
noncomputable def collect_places_textsearch (fetch : Nat → PageResponse)
    (maxPages : Nat) (c_lat c_lon filter_radius_m : ℝ) :
    Except ApiError (List TextPlace) :=
  match (text_search_pages fetch maxPages).1 with
  | .error e => .error e
  | .ok raw => .ok (processTextResults raw c_lat c_lon filter_radius_m)

/-- The settings fields relevant to the radius and page-cap claims
(`src/config.py`). -/
structure Settings where
  max_nearby_radius_m : ℝ
  tile_radius_m : ℝ
  max_pages_per_tile : Nat
  max_pages_textsearch : Nat

/-- The `Settings` defaults of `src/config.py`. -/
noncomputable def defaultSettings : Settings :=
  { max_nearby_radius_m := 50000
    tile_radius_m := 40000
    max_pages_per_tile := 3
    max_pages_textsearch := 3 }

/-- The tile-cap radius as the spec words it: the minimum of the hard API
ceiling and the configured safe tile radius. -/
noncomputable def tileCapRadius (s : Settings) : ℝ :=
  min s.max_nearby_radius_m s.tile_radius_m

/-- The per-tile radius computed by `run` in `src/pipeline.py` line 38 and
passed unchanged to `collect_places` on line 43; the user-requested
`radius_m` does not enter this value. -/
noncomputable def run_tile_radius_m (s : Settings) : ℝ :=
  min s.tile_radius_m s.max_nearby_radius_m

/-- The per-tile radius computed by the Geo Coverage mode of `app.py` lines
246 and 253: `int(min(user_radius_m, tile_radius_m))`, Python `int()` being
truncation toward zero (floor on the nonnegative radii involved). -/
noncomputable def app_search_radius_m (s : Settings) (user_radius_m : ℝ) : ℤ :=
  ⌊min user_radius_m (min s.tile_radius_m s.max_nearby_radius_m)⌋

/-- Modelled from the spec: `app.py` lines 263-271 call `collect_places`
with `filter_center` / `filter_radius_m` keyword arguments, but the version
of `src/places_collector.py` in the repository accepts no such parameters;
the filtering variant of the tiled collector is missing from the source.
Following §9 of the spec ("after merging canonical results, optionally drop
entries farther than a given true radius from a given true center"), the
re-filter keeps exactly the merged entries whose straight-line (haversine)
distance from the true center is within the true radius. -/
noncomputable def collect_places_filtered (tiles : List (Nat → PageResponse))
    (maxPages : Nat) (f_lat f_lon filter_radius_m : ℝ) :
    Except ApiError (List Place) :=
  (collect_places_run tiles maxPages).map fun places =>
    places.filter fun p =>
      match p.lat, p.lon with
      | some plat, some plon => decide (haversine_m f_lat f_lon plat plon ≤ filter_radius_m)
      | _, _ => false

theorem dictUpd_mem (m : List ((ℤ × ℤ) × (ℝ × ℝ))) (k : ℤ × ℤ) (v : ℝ × ℝ) :
    ∀ e ∈ dictUpd m k v, e ∈ m ∨ e = (k, v) := by
  intro e he
  unfold dictUpd at he
  by_cases hk : k ∈ m.map Prod.fst
  · rw [if_pos hk, List.mem_map] at he
    obtain ⟨a, ha, rfl⟩ := he
    by_cases h1 : a.1 = k
    · simp [h1]
    · simp [h1, ha]
  · rw [if_neg hk, List.mem_append] at he
    rcases he with h | h
    · exact .inl h
    · simp at h
      exact .inr h

theorem dictUpd_self_mem (m : List ((ℤ × ℤ) × (ℝ × ℝ))) (k : ℤ × ℤ) (v : ℝ × ℝ) :
    (k, v) ∈ dictUpd m k v := by
  unfold dictUpd
  by_cases hk : k ∈ m.map Prod.fst
  · rw [if_pos hk]
    rw [List.mem_map] at hk
    obtain ⟨a, ha, hak⟩ := hk
    rw [List.mem_map]
    exact ⟨a, ha, by simp [hak]⟩
  · rw [if_neg hk]
    simp

theorem dictUpd_keys (m : List ((ℤ × ℤ) × (ℝ × ℝ))) (k : ℤ × ℤ) (v : ℝ × ℝ) :
    (dictUpd m k v).map Prod.fst = m.map Prod.fst ∨
      ((dictUpd m k v).map Prod.fst = m.map Prod.fst ++ [k] ∧ k ∉ m.map Prod.fst) := by
  unfold dictUpd
  by_cases hk : k ∈ m.map Prod.fst
  · rw [if_pos hk]
    left
    rw [List.map_map]
    apply List.map_congr_left
    intro a _
    by_cases h1 : a.1 = k
    · simp [h1]
    · simp [h1]
  · rw [if_neg hk]
    right
    simp [hk]

theorem dictUpd_keys_nodup (m : List ((ℤ × ℤ) × (ℝ × ℝ))) (k : ℤ × ℤ) (v : ℝ × ℝ)
    (h : (m.map Prod.fst).Nodup) : ((dictUpd m k v).map Prod.fst).Nodup := by
  rcases dictUpd_keys m k v with hq | ⟨hq, hk⟩
  · rw [hq]; exact h
  · rw [hq]
    simp only [List.nodup_append, List.nodup_cons, List.nodup_nil]
    refine ⟨h, by simp, ?_⟩
    intro a ha
    simp only [List.mem_singleton]
    intro hak
    exact hk (hak ▸ ha)

theorem dictFold_mem (xs : List (ℝ × ℝ)) :
    ∀ m0, ∀ e ∈ xs.foldl (fun m p => dictUpd m (key5 p) p) m0,
      e ∈ m0 ∨ ∃ p ∈ xs, e = (key5 p, p) := by
  induction xs with
  | nil => simp
  | cons x xs ih =>
    intro m0 e he
    simp only [List.foldl_cons] at he
    rcases ih (dictUpd m0 (key5 x) x) e he with h | h
    · rcases dictUpd_mem _ _ _ _ h with h' | h'
      · exact .inl h'
      · exact .inr ⟨x, by simp, h'⟩
    · obtain ⟨p, hp, hep⟩ := h
      exact .inr ⟨p, by simp [hp], hep⟩

theorem dictFold_keys_nodup (xs : List (ℝ × ℝ)) :
    ∀ m0, (m0.map Prod.fst).Nodup →
      ((xs.foldl (fun m p => dictUpd m (key5 p) p) m0).map Prod.fst).Nodup := by
  induction xs with
  | nil => simpa
  | cons x xs ih =>
    intro m0 h
    simp only [List.foldl_cons]
    exact ih _ (dictUpd_keys_nodup _ _ _ h)

theorem dedupRound_subset (xs : List (ℝ × ℝ)) : ∀ v ∈ dedupRound xs, v ∈ xs := by
  intro v hv
  unfold dedupRound at hv
  rw [List.mem_map] at hv
  obtain ⟨e, he, rfl⟩ := hv
  rcases dictFold_mem xs [] e he with h | ⟨p, hp, rfl⟩
  · simp at h
  · exact hp

theorem dedupRound_last_mem (xs : List (ℝ × ℝ)) (c : ℝ × ℝ) :
    c ∈ dedupRound (xs ++ [c]) := by
  unfold dedupRound
  rw [List.foldl_append]
  simp only [List.foldl_cons, List.foldl_nil]
  rw [List.mem_map]
  exact ⟨(key5 c, c), dictUpd_self_mem _ _ _, rfl⟩

theorem dedupRound_pairwise (xs : List (ℝ × ℝ)) :
    (dedupRound xs).Pairwise fun a b => key5 a ≠ key5 b := by
  unfold dedupRound
  rw [List.pairwise_map]
  have hkeys := dictFold_keys_nodup xs [] (by simp)
  have hform := dictFold_mem xs []
  have hpw : (xs.foldl (fun m p => dictUpd m (key5 p) p) []).Pairwise
      fun a b => a.1 ≠ b.1 := by
    have := hkeys
    rw [List.Nodup, List.pairwise_map] at this
    exact this
  refine hpw.imp_of_mem ?_
  intro a b ha hb hne
  rcases hform a ha with h | ⟨p, _, rfl⟩
  · simp at h
  rcases hform b hb with h | ⟨q, _, rfl⟩
  · simp at h
  simpa using hne

/-- C2: for positive radii, `generate_tile_centers` returns exactly the
input center when `userRadius ≤ tileCapRadius`; in every case the returned
list contains the original center, every member lies within `userRadius` of
the original center under the planar projected-meters approximation used to
generate it (`planar_dist_sq ≤ r²`), and no two members coincide at
5-decimal precision. -/
theorem C2_generate_tile_centers (lat lon r t : ℝ) (hr : 0 < r) (ht : 0 < t) :
    (r ≤ t → generate_tile_centers lat lon r t = [(lat, lon)]) ∧
    (lat, lon) ∈ generate_tile_centers lat lon r t ∧
    (∀ c ∈ generate_tile_centers lat lon r t,
      planar_dist_sq lat lon c.1 c.2 ≤ r * r) ∧
    (generate_tile_centers lat lon r t).Pairwise fun a b => key5 a ≠ key5 b := by
  have hself : planar_dist_sq lat lon lat lon = 0 := by
    simp [planar_dist_sq]
  by_cases hle : r ≤ t
  · rw [generate_tile_centers, if_pos hle]
    refine ⟨fun _ => rfl, by simp, ?_, by simp⟩
    intro c hc
    rw [List.mem_singleton] at hc
    subst hc
    simp only [hself]
    exact mul_self_nonneg r
  · rw [generate_tile_centers, if_neg hle]
    simp only []
    refine ⟨fun h => absurd h hle, dedupRound_last_mem _ _, ?_, dedupRound_pairwise _⟩
    intro c hc
    have hc' := dedupRound_subset _ _ hc
    rw [List.mem_append] at hc'
    rcases hc' with hc' | hc'
    · rw [List.mem_flatMap] at hc'
      obtain ⟨cl, _, hcl⟩ := hc'
      rw [List.mem_map] at hcl
      obtain ⟨cg, hcg, rfl⟩ := hcl
      rw [List.mem_filter] at hcg
      exact of_decide_eq_true hcg.2
    · rw [List.mem_singleton] at hc'
      subst hc'
      simp only [hself]
      exact mul_self_nonneg r

/-- Witness for C2 at the concrete input `lat = 0, lon = 0, r = 2, t = 3`. -/
theorem C2_generate_tile_centers_witness :
    (0 : ℝ) < 2 ∧ (0 : ℝ) < 3 ∧ (2 : ℝ) ≤ 3 ∧
      generate_tile_centers 0 0 2 3 = [(0, 0)] :=
  ⟨by norm_num, by norm_num, by norm_num,
    (C2_generate_tile_centers 0 0 2 3 (by norm_num) (by norm_num)).1 (by norm_num)⟩

theorem paginate_go_bad (fetch : Nat → PageResponse) (maxPages page : Nat)
    (acc : List RawPlace) (h : ¬goodStatus (fetch page).status) :
    paginate_go fetch maxPages page acc =
      (.error ⟨(fetch page).status, (fetch page).error_message⟩, page + 1) := by
  rw [paginate_go]
  simp only [if_neg h]

theorem paginate_go_stop (fetch : Nat → PageResponse) (maxPages page : Nat)
    (acc : List RawPlace) (h : goodStatus (fetch page).status)
    (h2 : ¬(tokenTruthy (fetch page).next_page_token = true ∧ page + 1 < maxPages)) :
    paginate_go fetch maxPages page acc =
      (.ok (acc ++ (fetch page).results), page + 1) := by
  rw [paginate_go]
  simp only [if_pos h, dif_neg h2]

theorem paginate_go_continue (fetch : Nat → PageResponse) (maxPages page : Nat)
    (acc : List RawPlace) (h : goodStatus (fetch page).status)
    (h2 : tokenTruthy (fetch page).next_page_token = true ∧ page + 1 < maxPages) :
    paginate_go fetch maxPages page acc =
      paginate_go fetch maxPages (page + 1) (acc ++ (fetch page).results) := by
  rw [paginate_go]
  simp only [if_pos h, dif_pos h2]

theorem paginate_go_count_ge (fetch : Nat → PageResponse) (maxPages : Nat) :
    ∀ n page acc, maxPages - page = n →
      page + 1 ≤ (paginate_go fetch maxPages page acc).2 := by
  intro n
  induction n with
  | zero =>
    intro page acc hn
    by_cases h : goodStatus (fetch page).status
    · rw [paginate_go_stop fetch maxPages page acc h (by omega)]
    · rw [paginate_go_bad fetch maxPages page acc h]
  | succ n ih =>
    intro page acc hn
    by_cases h : goodStatus (fetch page).status
    · by_cases h2 : tokenTruthy (fetch page).next_page_token = true ∧ page + 1 < maxPages
      · rw [paginate_go_continue fetch maxPages page acc h h2]
        have := ih (page + 1) (acc ++ (fetch page).results) (by omega)
        omega
      · rw [paginate_go_stop fetch maxPages page acc h h2]
    · rw [paginate_go_bad fetch maxPages page acc h]

theorem paginate_go_count_all_tokens (fetch : Nat → PageResponse) (maxPages : Nat)
    (hgood : ∀ i, goodStatus (fetch i).status)
    (htok : ∀ i, tokenTruthy (fetch i).next_page_token = true) :
    ∀ n page acc, maxPages - page = n → page < maxPages →
      (paginate_go fetch maxPages page acc).2 = maxPages := by
  intro n
  induction n with
  | zero =>
    intro page acc hn hlt
    omega
  | succ n ih =>
    intro page acc hn hlt
    by_cases h2 : page + 1 < maxPages
    · rw [paginate_go_continue fetch maxPages page acc (hgood page) ⟨htok page, h2⟩]
      exact ih (page + 1) _ (by omega) h2
    · rw [paginate_go_stop fetch maxPages page acc (hgood page) (by
        intro hc
        exact h2 hc.2)]
      omega

theorem paginate_go_count_first_no_token (fetch : Nat → PageResponse) (maxPages k : Nat)
    (hgood : ∀ i, goodStatus (fetch i).status)
    (htok : ∀ i, i < k → tokenTruthy (fetch i).next_page_token = true)
    (hk : tokenTruthy (fetch k).next_page_token = false)
    (hmax : k + 1 ≤ maxPages) :
    ∀ n page acc, k - page = n → page ≤ k →
      (paginate_go fetch maxPages page acc).2 = k + 1 := by
  intro n
  induction n with
  | zero =>
    intro page acc hn hpk
    have hpage : page = k := by omega
    subst hpage
    rw [paginate_go_stop fetch maxPages page acc (hgood page) (by
      intro hc
      rw [hk] at hc
      exact Bool.false_ne_true hc.1)]
  | succ n ih =>
    intro page acc hn hpk
    have hlt : page < k := by omega
    rw [paginate_go_continue fetch maxPages page acc (hgood page)
      ⟨htok page hlt, by omega⟩]
    exact ih (page + 1) _ (by omega) (by omega)

theorem paginate_go_error_spec (fetch : Nat → PageResponse) (maxPages : Nat) :
    ∀ n page acc, maxPages - page = n →
      ∀ e, (paginate_go fetch maxPages page acc).1 = .error e →
        ∃ k, page ≤ k ∧ k < (paginate_go fetch maxPages page acc).2 ∧
          ¬goodStatus (fetch k).status ∧
          e = ⟨(fetch k).status, (fetch k).error_message⟩ := by
  intro n
  induction n with
  | zero =>
    intro page acc hn e he
    by_cases h : goodStatus (fetch page).status
    · rw [paginate_go_stop fetch maxPages page acc h (by omega)] at he
      simp at he
    · rw [paginate_go_bad fetch maxPages page acc h] at he ⊢
      simp only [Except.error.injEq] at he
      exact ⟨page, le_refl _, by omega, h, he.symm⟩
  | succ n ih =>
    intro page acc hn e he
    by_cases h : goodStatus (fetch page).status
    · by_cases h2 : tokenTruthy (fetch page).next_page_token = true ∧ page + 1 < maxPages
      · rw [paginate_go_continue fetch maxPages page acc h h2] at he ⊢
        obtain ⟨k, hk1, hk2, hk3, hk4⟩ := ih (page + 1) _ (by omega) e he
        exact ⟨k, by omega, hk2, hk3, hk4⟩
      · rw [paginate_go_stop fetch maxPages page acc h h2] at he
        simp at he
    · rw [paginate_go_bad fetch maxPages page acc h] at he ⊢
      simp only [Except.error.injEq] at he
      exact ⟨page, le_refl _, by omega, h, he.symm⟩

theorem paginate_go_ok_spec (fetch : Nat → PageResponse) (maxPages : Nat) :
    ∀ n page acc, maxPages - page = n →
      ∀ l, (paginate_go fetch maxPages page acc).1 = .ok l →
        ∀ k, page ≤ k → k < (paginate_go fetch maxPages page acc).2 →
          goodStatus (fetch k).status := by
  intro n
  induction n with
  | zero =>
    intro page acc hn l hl k hk1 hk2
    by_cases h : goodStatus (fetch page).status
    · rw [paginate_go_stop fetch maxPages page acc h (by omega)] at hl hk2
      have : k = page := by omega
      exact this ▸ h
    · rw [paginate_go_bad fetch maxPages page acc h] at hl
      simp at hl
  | succ n ih =>
    intro page acc hn l hl k hk1 hk2
    by_cases h : goodStatus (fetch page).status
    · by_cases h2 : tokenTruthy (fetch page).next_page_token = true ∧ page + 1 < maxPages
      · rw [paginate_go_continue fetch maxPages page acc h h2] at hl hk2
        by_cases hkp : k = page
        · exact hkp ▸ h
        · exact ih (page + 1) _ (by omega) l hl k (by omega) hk2
      · rw [paginate_go_stop fetch maxPages page acc h h2] at hl hk2
        have : k = page := by omega
        exact this ▸ h
    · rw [paginate_go_bad fetch maxPages page acc h] at hl
      simp at hl

theorem collect_places_error_iff (maxPages : Nat) :
    ∀ tiles seen acc,
      (∃ e, collect_places tiles maxPages seen acc = .error e) ↔
        ∃ t ∈ tiles, ∃ e, (nearby_search_tile t maxPages).1 = .error e := by
  intro tiles
  induction tiles with
  | nil => simp [collect_places]
  | cons t rest ih =>
    intro seen acc
    unfold collect_places
    cases ht : (nearby_search_tile t maxPages).1 with
    | error e =>
      simp only [List.mem_cons]
      constructor
      · intro _
        exact ⟨t, .inl rfl, e, ht⟩
      · intro _
        exact ⟨e, rfl⟩
    | ok results =>
      simp only [List.mem_cons]
      constructor
      · intro he
        obtain ⟨t', ht', he'⟩ := (ih _ _).mp he
        exact ⟨t', .inr ht', he'⟩
      · rintro ⟨t', ht' | ht', e, he'⟩
        · rw [ht'] at he'
          rw [ht] at he'
          cases he'
        · exact (ih _ _).mpr ⟨t', ht', e, he'⟩

theorem collect_places_error_val (maxPages : Nat) :
    ∀ tiles seen acc e, collect_places tiles maxPages seen acc = .error e →
      ∃ t ∈ tiles, (nearby_search_tile t maxPages).1 = .error e := by
  intro tiles
  induction tiles with
  | nil =>
    intro seen acc e he
    simp [collect_places] at he
  | cons t rest ih =>
    intro seen acc e he
    unfold collect_places at he
    cases ht : (nearby_search_tile t maxPages).1 with
    | error e' =>
      rw [ht] at he
      cases he
      exact ⟨t, by simp, ht⟩
    | ok results =>
      rw [ht] at he
      obtain ⟨t', ht', he'⟩ := ih _ _ _ he
      exact ⟨t', by simp [ht'], he'⟩

/-- C6: with the page cap configured to 3, both paginators issue exactly 3
requests when every page carries a continuation token (the token of the 3rd
page is ignored) and the result is a normal (non-error) return; and for any
page cap, pagination stops right after the first page whose token is absent
or empty: if pages before `k` carry tokens and page `k` does not, exactly
`k + 1` requests are issued. -/
theorem C6_pagination (fetch : Nat → PageResponse)
    (hgood : ∀ i, goodStatus (fetch i).status) :
    ((∀ i, tokenTruthy (fetch i).next_page_token = true) →
      (nearby_search_tile fetch 3).2 = 3 ∧ (text_search_pages fetch 3).2 = 3 ∧
        ∃ l, (nearby_search_tile fetch 3).1 = .ok l) ∧
    (∀ k maxPages, (∀ i, i < k → tokenTruthy (fetch i).next_page_token = true) →
      tokenTruthy (fetch k).next_page_token = false → k + 1 ≤ maxPages →
      (nearby_search_tile fetch maxPages).2 = k + 1 ∧
        (text_search_pages fetch maxPages).2 = k + 1) := by
  constructor
  · intro htok
    have hc : (paginate_go fetch 3 0 []).2 = 3 :=
      paginate_go_count_all_tokens fetch 3 hgood htok (3 - 0) 0 [] rfl (by omega)
    refine ⟨hc, hc, ?_⟩
    cases hres : (paginate_go fetch 3 0 []).1 with
    | error e =>
      obtain ⟨k, _, _, hbad, _⟩ :=
        paginate_go_error_spec fetch 3 (3 - 0) 0 [] rfl e hres
      exact absurd (hgood k) hbad
    | ok l => exact ⟨l, hres⟩
  · intro k maxPages htok hk hmax
    have hc : (paginate_go fetch maxPages 0 []).2 = k + 1 :=
      paginate_go_count_first_no_token fetch maxPages k hgood htok hk hmax
        (k - 0) 0 [] rfl (by omega)
    exact ⟨hc, hc⟩

/-- Witness for C6 at a concrete all-token response stream with page cap 3. -/
theorem C6_pagination_witness :
    (∀ i : Nat, goodStatus ((fun _ => PageResponse.mk (some "OK") none [] (some "tok")) i).status) ∧
    (nearby_search_tile (fun _ => PageResponse.mk (some "OK") none [] (some "tok")) 3).2 = 3 := by
  have hgood : ∀ i : Nat,
      goodStatus ((fun _ => PageResponse.mk (some "OK") none [] (some "tok")) i).status :=
    fun _ => .inl rfl
  refine ⟨hgood, ?_⟩
  exact ((C6_pagination _ hgood).1 (fun _ => by decide)).1

/-- C7: a discovery collection call fails exactly when one of the pages it
actually requested carries a status other than `"OK"`/`"ZERO_RESULTS"`; the
raised error carries that page's upstream status and message; a failing tile
aborts the whole multi-tile collection (the result is the error, with no
partial list); and a `"ZERO_RESULTS"` page is not an error — with a token
present and page budget left, collection continues past it. -/
theorem C7_error_handling (fetch : Nat → PageResponse) (maxPages : Nat)
    (tiles : List (Nat → PageResponse)) :
    ((∃ e, (text_search_pages fetch maxPages).1 = .error e) ↔
      (∃ k, k < (text_search_pages fetch maxPages).2 ∧ ¬goodStatus (fetch k).status)) ∧
    (∀ e, (text_search_pages fetch maxPages).1 = .error e →
      ∃ k, k < (text_search_pages fetch maxPages).2 ∧ ¬goodStatus (fetch k).status ∧
        e = ⟨(fetch k).status, (fetch k).error_message⟩) ∧
    ((∃ e, collect_places_run tiles maxPages = .error e) ↔
      ∃ t ∈ tiles, ∃ e, (nearby_search_tile t maxPages).1 = .error e) ∧
    (∀ e, collect_places_run tiles maxPages = .error e →
      ∃ t ∈ tiles, (nearby_search_tile t maxPages).1 = .error e) ∧
    ((fetch 0).status = some "ZERO_RESULTS" →
      tokenTruthy (fetch 0).next_page_token = true → 2 ≤ maxPages →
      2 ≤ (text_search_pages fetch maxPages).2) := by
  refine ⟨?_, ?_, ?_, ?_, ?_⟩
  · constructor
    · rintro ⟨e, he⟩
      obtain ⟨k, _, hk2, hk3, _⟩ :=
        paginate_go_error_spec fetch maxPages (maxPages - 0) 0 [] rfl e he
      exact ⟨k, hk2, hk3⟩
    · rintro ⟨k, hk1, hk2⟩
      cases hres : (text_search_pages fetch maxPages).1 with
      | error e => exact ⟨e, rfl⟩
      | ok l =>
        exact absurd
          (paginate_go_ok_spec fetch maxPages (maxPages - 0) 0 [] rfl l hres k
            (by omega) hk1) hk2
  · intro e he
    obtain ⟨k, _, hk2, hk3, hk4⟩ :=
      paginate_go_error_spec fetch maxPages (maxPages - 0) 0 [] rfl e he
    exact ⟨k, hk2, hk3, hk4⟩
  · exact collect_places_error_iff maxPages tiles [] []
  · exact fun e => collect_places_error_val maxPages tiles [] [] e
  · intro hz htok hmax
    have hcont := paginate_go_continue fetch maxPages 0 [] (.inr hz) ⟨htok, by omega⟩
    show 2 ≤ (paginate_go fetch maxPages 0 []).2
    rw [hcont]
    exact paginate_go_count_ge fetch maxPages (maxPages - 1) 1 _ rfl

/-- Witness for C7 at a concrete stream whose first page is a
`ZERO_RESULTS` page with a token: the status is the zero-results status, the
token is truthy, and collection continues with a second request. -/
theorem C7_error_handling_witness :
    ((fun _ : Nat => PageResponse.mk (some "ZERO_RESULTS") none [] (some "tok")) 0).status =
        some "ZERO_RESULTS" ∧
    tokenTruthy ((fun _ : Nat => PageResponse.mk (some "ZERO_RESULTS") none [] (some "tok")) 0).next_page_token = true ∧
    2 ≤ (text_search_pages (fun _ => PageResponse.mk (some "ZERO_RESULTS") none [] (some "tok")) 3).2 :=
  ⟨rfl, by decide,
    (C7_error_handling (fun _ => PageResponse.mk (some "ZERO_RESULTS") none [] (some "tok")) 3
      []).2.2.2.2 rfl (by decide) (by omega)⟩

/-- `x` is the first element of `l` satisfying `P`: the elements before it
satisfy `¬P`. -/
def firstSuchThat {α : Type} (l : List α) (P : α → Prop) (x : α) : Prop :=
  ∃ l1 l2, l = l1 ++ x :: l2 ∧ P x ∧ ∀ y ∈ l1, ¬P y

theorem firstSuchThat_cons_skip {α : Type} {l : List α} {P : α → Prop} {x a : α}
    (ha : ¬P a) (h : firstSuchThat l P x) : firstSuchThat (a :: l) P x := by
  obtain ⟨l1, l2, rfl, hP, hl1⟩ := h
  refine ⟨a :: l1, l2, rfl, hP, ?_⟩
  intro y hy
  rcases List.mem_cons.mp hy with rfl | hy
  · exact ha
  · exact hl1 y hy

theorem firstSuchThat_head {α : Type} {l : List α} {P : α → Prop} {x : α}
    (hx : P x) : firstSuchThat (x :: l) P x :=
  ⟨[], l, rfl, hx, by simp⟩

theorem nearbyLoop_none (p : RawPlace) (rest : List RawPlace) (seen : List String)
    (acc : List Place) (h : p.place_id = none) :
    nearbyLoop (p :: rest) seen acc = nearbyLoop rest seen acc := by
  simp only [nearbyLoop]
  rw [h]

theorem nearbyLoop_skip (p : RawPlace) (rest : List RawPlace) (seen : List String)
    (acc : List Place) (pid : String) (h : p.place_id = some pid)
    (h2 : pid = "" ∨ pid ∈ seen) :
    nearbyLoop (p :: rest) seen acc = nearbyLoop rest seen acc := by
  simp only [nearbyLoop]
  rw [h]
  simp only [if_pos h2]

theorem nearbyLoop_keep (p : RawPlace) (rest : List RawPlace) (seen : List String)
    (acc : List Place) (pid : String) (h : p.place_id = some pid)
    (h2 : ¬(pid = "" ∨ pid ∈ seen)) :
    nearbyLoop (p :: rest) seen acc =
      nearbyLoop rest (pid :: seen) (acc ++ [mkPlace p pid]) := by
  simp only [nearbyLoop]
  rw [h]
  simp only [if_neg h2]

theorem nearbyLoop_spec (results : List RawPlace) :
    ∀ (seen : List String) (acc : List Place),
      (∀ s, s ∈ seen ↔ s ∈ acc.map Place.place_id) →
      (acc.map Place.place_id).Nodup →
      ((∀ s, s ∈ (nearbyLoop results seen acc).1 ↔
          s ∈ (nearbyLoop results seen acc).2.map Place.place_id) ∧
        ((nearbyLoop results seen acc).2.map Place.place_id).Nodup ∧
        (∀ p ∈ (nearbyLoop results seen acc).2,
          p ∈ acc ∨
            (p.place_id ∉ seen ∧ p.place_id ≠ "" ∧
              ∃ r, firstSuchThat results (fun q => q.place_id = some p.place_id) r ∧
                p = mkPlace r p.place_id)) ∧
        (∀ r ∈ results, ∀ pid, r.place_id = some pid → pid ≠ "" →
          pid ∈ (nearbyLoop results seen acc).1) ∧
        (∀ s ∈ seen, s ∈ (nearbyLoop results seen acc).1)) := by
  induction results with
  | nil =>
    intro seen acc h1 h2
    exact ⟨h1, h2, fun p hp => .inl hp, by simp, fun s hs => hs⟩
  | cons r rest ih =>
    intro seen acc h1 h2
    cases hr : r.place_id with
    | none =>
      rw [nearbyLoop_none r rest seen acc hr]
      obtain ⟨g1, g2, g3, g4, g5⟩ := ih seen acc h1 h2
      refine ⟨g1, g2, ?_, ?_, g5⟩
      · intro p hp
        rcases g3 p hp with h | ⟨hs, hne, rr, hfirst, hmk⟩
        · exact .inl h
        · refine .inr ⟨hs, hne, rr, ?_, hmk⟩
          exact firstSuchThat_cons_skip (by rw [hr]; simp) hfirst
      · intro r' hr' pid hpid hne
        rcases List.mem_cons.mp hr' with rfl | hr'
        · rw [hr] at hpid
          cases hpid
        · exact g4 r' hr' pid hpid hne
    | some pid =>
      by_cases hc : pid = "" ∨ pid ∈ seen
      · rw [nearbyLoop_skip r rest seen acc pid hr hc]
        obtain ⟨g1, g2, g3, g4, g5⟩ := ih seen acc h1 h2
        refine ⟨g1, g2, ?_, ?_, g5⟩
        · intro p hp
          rcases g3 p hp with h | ⟨hs, hne, rr, hfirst, hmk⟩
          · exact .inl h
          · refine .inr ⟨hs, hne, rr, ?_, hmk⟩
            refine firstSuchThat_cons_skip ?_ hfirst
            rw [hr]
            intro hq
            rw [Option.some_inj] at hq
            rcases hc with hc | hc
            · exact hne (hq ▸ hc)
            · exact hs (hq ▸ hc)
        · intro r' hr' pid' hpid hne
          rcases List.mem_cons.mp hr' with rfl | hr'
          · rw [hr] at hpid
            rw [Option.some_inj] at hpid
            subst hpid
            rcases hc with hc | hc
            · exact absurd hc hne
            · exact g5 _ hc
          · exact g4 r' hr' pid' hpid hne
      · rw [nearbyLoop_keep r rest seen acc pid hr hc]
        push_neg at hc
        obtain ⟨hne0, hns⟩ := hc
        have hnp : pid ∉ acc.map Place.place_id := fun h => hns ((h1 pid).mpr h)
        have h1' : ∀ s, s ∈ pid :: seen ↔
            s ∈ (acc ++ [mkPlace r pid]).map Place.place_id := by
          intro s
          simp only [List.mem_cons, List.map_append, List.mem_append, h1 s]
          simp [mkPlace, Or.comm]
        have h2' : ((acc ++ [mkPlace r pid]).map Place.place_id).Nodup := by
          simp only [List.map_append]
          simp only [List.nodup_append, List.nodup_cons, List.nodup_nil]
          refine ⟨h2, by simp, ?_⟩
          intro a ha
          simp only [List.map_cons, List.map_nil, List.mem_singleton]
          intro hak
          rw [show (mkPlace r pid).place_id = pid from rfl] at hak
          exact hnp (hak ▸ ha)
        obtain ⟨g1, g2, g3, g4, g5⟩ := ih (pid :: seen) (acc ++ [mkPlace r pid]) h1' h2'
        refine ⟨g1, g2, ?_, ?_, ?_⟩
        · intro p hp
          rcases g3 p hp with h | ⟨hs, hne, rr, hfirst, hmk⟩
          · rcases List.mem_append.mp h with h | h
            · exact .inl h
            · rw [List.mem_singleton] at h
              subst h
              refine .inr ⟨hns, hne0, r, ?_, rfl⟩
              exact firstSuchThat_head (by rw [hr]; rfl)
          · have hs' : p.place_id ∉ seen := fun h => hs (List.mem_cons_of_mem _ h)
            have hsp : p.place_id ≠ pid := fun h => hs (h ▸ List.mem_cons_self _ _)
            refine .inr ⟨hs', hne, rr, ?_, hmk⟩
            refine firstSuchThat_cons_skip ?_ hfirst
            rw [hr]
            intro hq
            rw [Option.some_inj] at hq
            exact hsp hq.symm
        · intro r' hr' pid' hpid hne
          rcases List.mem_cons.mp hr' with rfl | hr'
          · rw [hr] at hpid
            rw [Option.some_inj] at hpid
            subst hpid
            exact g5 _ (List.mem_cons_self _ _)
          · exact g4 r' hr' pid' hpid hne
        · intro s hs
          exact g5 s (List.mem_cons_of_mem _ hs)

theorem nearbyLoop_append (a b : List RawPlace) :
    ∀ seen acc, nearbyLoop (a ++ b) seen acc =
      nearbyLoop b (nearbyLoop a seen acc).1 (nearbyLoop a seen acc).2 := by
  induction a with
  | nil => intro seen acc; rfl
  | cons r rest ih =>
    intro seen acc
    cases hr : r.place_id with
    | none =>
      rw [List.cons_append, nearbyLoop_none _ _ _ _ hr, nearbyLoop_none _ _ _ _ hr, ih]
    | some pid =>
      by_cases hc : pid = "" ∨ pid ∈ seen
      · rw [List.cons_append, nearbyLoop_skip _ _ _ _ pid hr hc,
          nearbyLoop_skip _ _ _ _ pid hr hc, ih]
      · rw [List.cons_append, nearbyLoop_keep _ _ _ _ pid hr hc,
          nearbyLoop_keep _ _ _ _ pid hr hc, ih]

theorem collect_merge_eq_flatten (tiles : List (List RawPlace)) :
    collect_merge tiles = (nearbyLoop tiles.flatten [] []).2 := by
  suffices h : ∀ st : List String × List Place,
      tiles.foldl (fun st res => nearbyLoop res st.1 st.2) st =
        nearbyLoop tiles.flatten st.1 st.2 by
    unfold collect_merge
    rw [h ([], [])]
  induction tiles with
  | nil => intro st; rfl
  | cons t rest ih =>
    intro st
    simp only [List.foldl_cons, List.flatten_cons]
    rw [nearbyLoop_append, ih]

/-- C4: for every sequence of tile result pages, the canonical list of the
tiled merge has pairwise-distinct place_ids; each entry is built
(`mkPlace`) from the first raw occurrence of its place_id in processing
order, so a place_id occurring in several tiles or pages keeps the fields
of the occurrence processed first; a truthy place_id occurring anywhere
appears exactly once; and entries lacking a truthy place_id never reach the
canonical list. -/
theorem C4_tiled_first_occurrence (tiles : List (List RawPlace)) :
    ((collect_merge tiles).map Place.place_id).Nodup ∧
    (∀ p ∈ collect_merge tiles,
      p.place_id ≠ "" ∧
        ∃ r, firstSuchThat tiles.flatten (fun q => q.place_id = some p.place_id) r ∧
          p = mkPlace r p.place_id) ∧
    (∀ r ∈ tiles.flatten, ∀ pid, r.place_id = some pid → pid ≠ "" →
      ∃ p ∈ collect_merge tiles, p.place_id = pid) := by
  rw [collect_merge_eq_flatten]
  obtain ⟨h1, h2, h3, h4, _⟩ := nearbyLoop_spec tiles.flatten [] [] (by simp) (by simp)
  refine ⟨h2, ?_, ?_⟩
  · intro p hp
    rcases h3 p hp with h | ⟨_, hne, hex⟩
    · simp at h
    · exact ⟨hne, hex⟩
  · intro r hr pid hpid hne
    have hmem := h4 r hr pid hpid hne
    rw [h1, List.mem_map] at hmem
    obtain ⟨p, hp, hps⟩ := hmem
    exact ⟨p, hp, hps⟩

/-- Witness for C4: two tiles share the place_id `"x"`; the merged list
holds that identity exactly once with the first tile's fields. -/
theorem C4_tiled_first_occurrence_witness :
    (RawPlace.mk (some "x") (some "A") none none none none [] ∈
        ([[RawPlace.mk (some "x") (some "A") none none none none []],
          [RawPlace.mk (some "x") (some "B") none none none none []]] :
          List (List RawPlace)).flatten) ∧
    ∃ p ∈ collect_merge
        [[RawPlace.mk (some "x") (some "A") none none none none []],
          [RawPlace.mk (some "x") (some "B") none none none none []]],
      p.place_id = "x" :=
  ⟨by simp,
    (C4_tiled_first_occurrence
      [[RawPlace.mk (some "x") (some "A") none none none none []],
        [RawPlace.mk (some "x") (some "B") none none none none []]]).2.2
      (RawPlace.mk (some "x") (some "A") none none none none [])
      (by simp) "x" rfl (by simp)⟩

/-- A raw text-search result is a keepable occurrence of `pid`: truthy
place_id, both coordinates present, and haversine distance from the filter
center within the filter radius. -/
noncomputable def textQualifies (c_lat c_lon filter_radius_m : ℝ) (pid : String)
    (q : RawPlace) : Prop :=
  q.place_id = some pid ∧ pid ≠ "" ∧
    ∃ plat plon, q.geo_lat = some plat ∧ q.geo_lng = some plon ∧
      haversine_m c_lat c_lon plat plon ≤ filter_radius_m

theorem textLoop_none (c_lat c_lon fr : ℝ) (p : RawPlace) (rest : List RawPlace)
    (seen : List String) (acc : List TextPlace) (h : p.place_id = none) :
    textLoop c_lat c_lon fr (p :: rest) seen acc =
      textLoop c_lat c_lon fr rest seen acc := by
  simp only [textLoop]
  rw [h]

theorem textLoop_skip (c_lat c_lon fr : ℝ) (p : RawPlace) (rest : List RawPlace)
    (seen : List String) (acc : List TextPlace) (pid : String)
    (h : p.place_id = some pid) (h2 : pid = "" ∨ pid ∈ seen) :
    textLoop c_lat c_lon fr (p :: rest) seen acc =
      textLoop c_lat c_lon fr rest seen acc := by
  simp only [textLoop]
  rw [h]
  simp only [if_pos h2]

theorem textLoop_no_lat (c_lat c_lon fr : ℝ) (p : RawPlace) (rest : List RawPlace)
    (seen : List String) (acc : List TextPlace) (pid : String)
    (h : p.place_id = some pid) (h2 : ¬(pid = "" ∨ pid ∈ seen))
    (hlat : p.geo_lat = none) :
    textLoop c_lat c_lon fr (p :: rest) seen acc =
      textLoop c_lat c_lon fr rest seen acc := by
  simp only [textLoop]
  rw [h]
  simp only [if_neg h2]
  rw [hlat]

theorem textLoop_no_lng (c_lat c_lon fr : ℝ) (p : RawPlace) (rest : List RawPlace)
    (seen : List String) (acc : List TextPlace) (pid : String)
    (h : p.place_id = some pid) (h2 : ¬(pid = "" ∨ pid ∈ seen))
    (hlng : p.geo_lng = none) :
    textLoop c_lat c_lon fr (p :: rest) seen acc =
      textLoop c_lat c_lon fr rest seen acc := by
  simp only [textLoop]
  rw [h]
  simp only [if_neg h2]
  rw [hlng]
  cases p.geo_lat <;> rfl

theorem textLoop_far (c_lat c_lon fr : ℝ) (p : RawPlace) (rest : List RawPlace)
    (seen : List String) (acc : List TextPlace) (pid : String) (plat plon : ℝ)
    (h : p.place_id = some pid) (h2 : ¬(pid = "" ∨ pid ∈ seen))
    (hlat : p.geo_lat = some plat) (hlng : p.geo_lng = some plon)
    (hf : haversine_m c_lat c_lon plat plon > fr) :
    textLoop c_lat c_lon fr (p :: rest) seen acc =
      textLoop c_lat c_lon fr rest seen acc := by
  simp only [textLoop]
  rw [h]
  simp only [if_neg h2]
  rw [hlat, hlng]
  simp only [if_pos hf]

theorem textLoop_keep (c_lat c_lon fr : ℝ) (p : RawPlace) (rest : List RawPlace)
    (seen : List String) (acc : List TextPlace) (pid : String) (plat plon : ℝ)
    (h : p.place_id = some pid) (h2 : ¬(pid = "" ∨ pid ∈ seen))
    (hlat : p.geo_lat = some plat) (hlng : p.geo_lng = some plon)
    (hf : ¬haversine_m c_lat c_lon plat plon > fr) :
    textLoop c_lat c_lon fr (p :: rest) seen acc =
      textLoop c_lat c_lon fr rest (pid :: seen)
        (acc ++ [mkTextPlace p pid plat plon (haversine_m c_lat c_lon plat plon)]) := by
  simp only [textLoop]
  rw [h]
  simp only [if_neg h2]
  rw [hlat, hlng]
  simp only [if_neg hf]

theorem textLoop_spec (c_lat c_lon fr : ℝ) (raw : List RawPlace) :
    ∀ (seen : List String) (acc : List TextPlace),
      (∀ s, s ∈ seen ↔ s ∈ acc.map TextPlace.place_id) →
      (acc.map TextPlace.place_id).Nodup →
      (((textLoop c_lat c_lon fr raw seen acc).map TextPlace.place_id).Nodup ∧
        (∀ p ∈ textLoop c_lat c_lon fr raw seen acc,
          p ∈ acc ∨
            (p.place_id ∉ seen ∧ p.place_id ≠ "" ∧
              ∃ r, firstSuchThat raw (textQualifies c_lat c_lon fr p.place_id) r ∧
                ∃ plat plon, r.geo_lat = some plat ∧ r.geo_lng = some plon ∧
                  p = mkTextPlace r p.place_id plat plon
                    (haversine_m c_lat c_lon plat plon))) ∧
        (∀ r ∈ raw, ∀ pid, textQualifies c_lat c_lon fr pid r →
          pid ∈ seen ∨ pid ∈ (textLoop c_lat c_lon fr raw seen acc).map
            TextPlace.place_id) ∧
        (∀ p ∈ acc, p ∈ textLoop c_lat c_lon fr raw seen acc)) := by
  induction raw with
  | nil =>
    intro seen acc h1 h2
    exact ⟨h2, fun p hp => .inl hp, by simp, fun p hp => hp⟩
  | cons r rest ih =>
    intro seen acc h1 h2
    cases hr : r.place_id with
    | none =>
      rw [textLoop_none c_lat c_lon fr r rest seen acc hr]
      obtain ⟨g1, g2, g3, g4⟩ := ih seen acc h1 h2
      refine ⟨g1, ?_, ?_, g4⟩
      · intro p hp
        rcases g2 p hp with h | ⟨hs, hne, rr, hfirst, hrest⟩
        · exact .inl h
        · refine .inr ⟨hs, hne, rr, firstSuchThat_cons_skip ?_ hfirst, hrest⟩
          rintro ⟨hq1, -⟩
          rw [hr] at hq1
          cases hq1
      · intro r' hr' pid hq
        rcases List.mem_cons.mp hr' with rfl | hr'
        · obtain ⟨hq1, -⟩ := hq
          rw [hr] at hq1
          cases hq1
        · exact g3 r' hr' pid hq
    | some pid =>
      by_cases hc : pid = "" ∨ pid ∈ seen
      · rw [textLoop_skip c_lat c_lon fr r rest seen acc pid hr hc]
        obtain ⟨g1, g2, g3, g4⟩ := ih seen acc h1 h2
        refine ⟨g1, ?_, ?_, g4⟩
        · intro p hp
          rcases g2 p hp with h | ⟨hs, hne, rr, hfirst, hrest⟩
          · exact .inl h
          · refine .inr ⟨hs, hne, rr, firstSuchThat_cons_skip ?_ hfirst, hrest⟩
            rintro ⟨hq1, -⟩
            rw [hr] at hq1
            rw [Option.some_inj] at hq1
            rcases hc with hc | hc
            · exact hne (hq1 ▸ hc)
            · exact hs (hq1 ▸ hc)
        · intro r' hr' pid' hq
          rcases List.mem_cons.mp hr' with rfl | hr'
          · obtain ⟨hq1, hq2, -⟩ := hq
            rw [hr] at hq1
            rw [Option.some_inj] at hq1
            rcases hc with hc | hc
            · exact absurd (hq1 ▸ hc) hq2
            · exact .inl (hq1 ▸ hc)
          · exact g3 r' hr' pid' hq
      · cases hlat : r.geo_lat with
        | none =>
          rw [textLoop_no_lat c_lat c_lon fr r rest seen acc pid hr hc hlat]
          obtain ⟨g1, g2, g3, g4⟩ := ih seen acc h1 h2
          refine ⟨g1, ?_, ?_, g4⟩
          · intro p hp
            rcases g2 p hp with h | ⟨hs, hne, rr, hfirst, hrest⟩
            · exact .inl h
            · refine .inr ⟨hs, hne, rr, firstSuchThat_cons_skip ?_ hfirst, hrest⟩
              rintro ⟨_, _, plat, plon, hql, _⟩
              rw [hlat] at hql
              cases hql
          · intro r' hr' pid' hq
            rcases List.mem_cons.mp hr' with rfl | hr'
            · obtain ⟨_, _, plat, plon, hql, _⟩ := hq
              rw [hlat] at hql
              cases hql
            · exact g3 r' hr' pid' hq
        | some plat =>
          cases hlng : r.geo_lng with
          | none =>
            rw [textLoop_no_lng c_lat c_lon fr r rest seen acc pid hr hc hlng]
            obtain ⟨g1, g2, g3, g4⟩ := ih seen acc h1 h2
            refine ⟨g1, ?_, ?_, g4⟩
            · intro p hp
              rcases g2 p hp with h | ⟨hs, hne, rr, hfirst, hrest⟩
              · exact .inl h
              · refine .inr ⟨hs, hne, rr, firstSuchThat_cons_skip ?_ hfirst, hrest⟩
                rintro ⟨_, _, plat', plon', _, hql, _⟩
                rw [hlng] at hql
                cases hql
            · intro r' hr' pid' hq
              rcases List.mem_cons.mp hr' with rfl | hr'
              · obtain ⟨_, _, plat', plon', _, hql, _⟩ := hq
                rw [hlng] at hql
                cases hql
              · exact g3 r' hr' pid' hq
          | some plon =>
            by_cases hf : haversine_m c_lat c_lon plat plon > fr
            · rw [textLoop_far c_lat c_lon fr r rest seen acc pid plat plon hr hc
                hlat hlng hf]
              obtain ⟨g1, g2, g3, g4⟩ := ih seen acc h1 h2
              refine ⟨g1, ?_, ?_, g4⟩
              · intro p hp
                rcases g2 p hp with h | ⟨hs, hne, rr, hfirst, hrest⟩
                · exact .inl h
                · refine .inr ⟨hs, hne, rr, firstSuchThat_cons_skip ?_ hfirst, hrest⟩
                  rintro ⟨hq1, _, plat', plon', hql, hqg, hqd⟩
                  rw [hlat] at hql
                  rw [hlng] at hqg
                  rw [Option.some_inj] at hql hqg
                  subst hql
                  subst hqg
                  exact absurd hqd (not_le.mpr hf)
              · intro r' hr' pid' hq
                rcases List.mem_cons.mp hr' with rfl | hr'
                · obtain ⟨_, _, plat', plon', hql, hqg, hqd⟩ := hq
                  rw [hlat] at hql
                  rw [hlng] at hqg
                  rw [Option.some_inj] at hql hqg
                  subst hql
                  subst hqg
                  exact absurd hqd (not_le.mpr hf)
                · exact g3 r' hr' pid' hq
            · rw [textLoop_keep c_lat c_lon fr r rest seen acc pid plat plon hr hc
                hlat hlng hf]
              push_neg at hc
              obtain ⟨hne0, hns⟩ := hc
              have hnp : pid ∉ acc.map TextPlace.place_id :=
                fun h => hns ((h1 pid).mpr h)
              set q : TextPlace :=
                mkTextPlace r pid plat plon (haversine_m c_lat c_lon plat plon) with hq
              have h1' : ∀ s, s ∈ pid :: seen ↔ s ∈ (acc ++ [q]).map TextPlace.place_id := by
                intro s
                simp only [List.mem_cons, List.map_append, List.mem_append, h1 s]
                simp [hq, mkTextPlace, Or.comm]
              have h2' : ((acc ++ [q]).map TextPlace.place_id).Nodup := by
                simp only [List.map_append]
                simp only [List.nodup_append, List.nodup_cons, List.nodup_nil]
                refine ⟨h2, by simp, ?_⟩
                intro a ha
                simp only [List.map_cons, List.map_nil, List.mem_singleton]
                intro hak
                rw [show q.place_id = pid from rfl] at hak
                exact hnp (hak ▸ ha)
              obtain ⟨g1, g2, g3, g4⟩ := ih (pid :: seen) (acc ++ [q]) h1' h2'
              refine ⟨g1, ?_, ?_, ?_⟩
              · intro p hp
                rcases g2 p hp with h | ⟨hs, hne, rr, hfirst, hrest⟩
                · rcases List.mem_append.mp h with h | h
                  · exact .inl h
                  · rw [List.mem_singleton] at h
                    subst h
                    refine .inr ⟨hns, hne0, r, ?_, plat, plon, hlat, hlng, rfl⟩
                    exact firstSuchThat_head
                      ⟨hr, hne0, plat, plon, hlat, hlng, not_lt.mp hf⟩
                · have hs' : p.place_id ∉ seen := fun h => hs (List.mem_cons_of_mem _ h)
                  have hsp : p.place_id ≠ pid := fun h => hs (h ▸ List.mem_cons_self _ _)
                  refine .inr ⟨hs', hne, rr, firstSuchThat_cons_skip ?_ hfirst, hrest⟩
                  rintro ⟨hql1, -⟩
                  rw [hr] at hql1
                  rw [Option.some_inj] at hql1
                  exact hsp hql1.symm
              · intro r' hr' pid' hql
                rcases List.mem_cons.mp hr' with rfl | hr'
                · obtain ⟨hqe, -, -⟩ := hql
                  rw [hr] at hqe
                  rw [Option.some_inj] at hqe
                  subst hqe
                  right
                  rw [List.mem_map]
                  exact ⟨q, g4 q (by simp), rfl⟩
                · rcases g3 r' hr' pid' hql with h | h
                  · rcases List.mem_cons.mp h with rfl | h
                    · right
                      rw [List.mem_map]
                      exact ⟨q, g4 q (by simp), rfl⟩
                    · exact .inl h
                  · exact .inr h
              · intro p hp
                exact g4 p (by simp [hp])

theorem firstSuchThat_mem {α : Type} {l : List α} {P : α → Prop} {x : α}
    (h : firstSuchThat l P x) : x ∈ l ∧ P x := by
  obtain ⟨l1, l2, rfl, hP, _⟩ := h
  exact ⟨by simp, hP⟩

theorem haversine_m_self (lat lon : ℝ) : haversine_m lat lon lat lon = 0 := by
  unfold haversine_m
  simp [sub_self]

theorem processTextResults_perm (raw : List RawPlace) (c_lat c_lon fr : ℝ) :
    (processTextResults raw c_lat c_lon fr).Perm (textLoop c_lat c_lon fr raw [] []) :=
  List.mergeSort_perm _ _

/-- C3: every entry of the text-query canonical list carries in `distance_m`
its haversine distance from the filter center, that distance is at most the
filter radius, and the list is sorted ascending by `distance_m`. -/
theorem C3_text_filter_and_sort (raw : List RawPlace) (c_lat c_lon fr : ℝ) :
    (∀ p ∈ processTextResults raw c_lat c_lon fr,
      p.distance_m = haversine_m c_lat c_lon p.lat p.lon ∧ p.distance_m ≤ fr) ∧
    (processTextResults raw c_lat c_lon fr).Sorted
      fun a b => a.distance_m ≤ b.distance_m := by
  constructor
  · intro p hp
    have hp' := (processTextResults_perm raw c_lat c_lon fr).mem_iff.mp hp
    obtain ⟨_, g2, _, _⟩ := textLoop_spec c_lat c_lon fr raw [] [] (by simp) (by simp)
    rcases g2 p hp' with h | ⟨_, _, r, hfirst, plat, plon, hlat, hlng, hpe⟩
    · simp at h
    · obtain ⟨_, _, plat', plon', hlat', hlng', hd⟩ := (firstSuchThat_mem hfirst).2
      rw [hlat] at hlat'
      rw [hlng] at hlng'
      rw [Option.some_inj] at hlat' hlng'
      subst hlat'
      subst hlng'
      rw [hpe]
      exact ⟨rfl, hd⟩
  · have hs := @List.sorted_mergeSort TextPlace
      (fun a b : TextPlace => decide (a.distance_m ≤ b.distance_m))
      (fun a b c hab hbc =>
        decide_eq_true (le_trans (of_decide_eq_true hab) (of_decide_eq_true hbc)))
      (fun a b => by
        rcases le_total a.distance_m b.distance_m with h | h
        · simp [decide_eq_true h]
        · simp [decide_eq_true h])
      (textLoop c_lat c_lon fr raw [] [])
    exact hs.imp fun h => of_decide_eq_true h

/-- Witness for C3 at a concrete one-entry raw list centered on the filter
center. -/
theorem C3_text_filter_and_sort_witness :
    (processTextResults [RawPlace.mk (some "a") none none none (some 0) (some 0) []]
        0 0 10000).Sorted (fun a b => a.distance_m ≤ b.distance_m) :=
  (C3_text_filter_and_sort
    [RawPlace.mk (some "a") none none none (some 0) (some 0) []] 0 0 10000).2

/-- C5 (amended): in text-query discovery the duplicate check by identity
key does precede the distance filter, but a key is recorded as seen only
when an occurrence is kept; hence the canonical entry for a key is built
from the first occurrence of that key that has coordinates and passes the
distance filter, every occurrence after a kept one is skipped as a
duplicate, and no key appears twice. -/
theorem C5_text_dedup_first_kept (raw : List RawPlace) (c_lat c_lon fr : ℝ) :
    ((processTextResults raw c_lat c_lon fr).map TextPlace.place_id).Nodup ∧
    (∀ p ∈ processTextResults raw c_lat c_lon fr,
      ∃ r, firstSuchThat raw (textQualifies c_lat c_lon fr p.place_id) r ∧
        ∃ plat plon, r.geo_lat = some plat ∧ r.geo_lng = some plon ∧
          p = mkTextPlace r p.place_id plat plon (haversine_m c_lat c_lon plat plon)) ∧
    (∀ r ∈ raw, ∀ pid, textQualifies c_lat c_lon fr pid r →
      pid ∈ (processTextResults raw c_lat c_lon fr).map TextPlace.place_id) := by
  obtain ⟨g1, g2, g3, _⟩ := textLoop_spec c_lat c_lon fr raw [] [] (by simp) (by simp)
  have hperm := processTextResults_perm raw c_lat c_lon fr
  refine ⟨((hperm.map TextPlace.place_id).nodup_iff).mpr g1, ?_, ?_⟩
  · intro p hp
    rcases g2 p (hperm.mem_iff.mp hp) with h | ⟨_, _, r, hfirst, hrest⟩
    · simp at h
    · exact ⟨r, hfirst, hrest⟩
  · intro r hr pid hq
    rcases g3 r hr pid hq with h | h
    · simp at h
    · exact ((hperm.map TextPlace.place_id).mem_iff).mpr h

/-- Witness for C5 (amended) at a concrete qualifying raw result. -/
theorem C5_text_dedup_first_kept_witness :
    textQualifies 0 0 10000 "a"
        (RawPlace.mk (some "a") none none none (some 0) (some 0) []) ∧
    "a" ∈ (processTextResults [RawPlace.mk (some "a") none none none (some 0) (some 0) []]
        0 0 10000).map TextPlace.place_id := by
  have hq : textQualifies 0 0 10000 "a"
      (RawPlace.mk (some "a") none none none (some 0) (some 0) []) :=
    ⟨rfl, by decide, 0, 0, rfl, rfl, by rw [haversine_m_self]; norm_num⟩
  exact ⟨hq,
    (C5_text_dedup_first_kept
        [RawPlace.mk (some "a") none none none (some 0) (some 0) []] 0 0 10000).2.2
      _ (by simp) "a" hq⟩

theorem haversine_m_pole : haversine_m 0 0 90 0 > 10000 := by
  show 2 * EARTH_RADIUS_M * Real.arcsin (Real.sqrt
      (Real.sin ((90 - 0) * (π / 180) / 2) ^ 2 +
        Real.cos (0 * (π / 180)) * Real.cos (90 * (π / 180)) *
          Real.sin ((0 - 0) * (π / 180) / 2) ^ 2)) > 10000
  have e1 : ((90 : ℝ) - 0) * (π / 180) / 2 = π / 4 := by ring
  have e2 : (0 : ℝ) * (π / 180) = 0 := by ring
  have e3 : (90 : ℝ) * (π / 180) = π / 2 := by ring
  have e4 : ((0 : ℝ) - 0) * (π / 180) / 2 = 0 := by ring
  rw [e1, e2, e3, e4, Real.cos_zero, Real.cos_pi_div_two, Real.sin_zero,
    Real.sin_pi_div_four]
  have e5 : (Real.sqrt 2 / 2) ^ 2 + 1 * 0 * (0 : ℝ) ^ 2 = 1 / 2 := by
    rw [div_pow, Real.sq_sqrt (by norm_num : (0 : ℝ) ≤ 2)]
    norm_num
  rw [e5]
  have e6 : Real.sqrt (1 / 2 : ℝ) = Real.sqrt 2 / 2 := by
    rw [show (1 / 2 : ℝ) = (Real.sqrt 2 / 2) ^ 2 by
      rw [div_pow, Real.sq_sqrt (by norm_num : (0 : ℝ) ≤ 2)]
      norm_num]
    exact Real.sqrt_sq (by positivity)
  rw [e6]
  have e7 : Real.arcsin (Real.sqrt 2 / 2) = π / 4 := by
    rw [← Real.sin_pi_div_four]
    exact Real.arcsin_sin (by linarith [Real.pi_pos]) (by linarith [Real.pi_pos])
  rw [e7]
  unfold EARTH_RADIUS_M
  nlinarith [Real.pi_gt_three]

/-- Counterexample to C5 as stated: the identity key `"a"` occurs twice;
its first occurrence (at the pole, beyond the 10000 m filter radius) is
rejected by the distance filter without being marked seen, so the later
occurrence (at the center) is not skipped as a duplicate: the canonical
list is built from the second occurrence rather than being empty. -/
theorem C5_counterexample_second_occurrence_kept :
    processTextResults
        [RawPlace.mk (some "a") none none none (some 90) (some 0) [],
          RawPlace.mk (some "a") none none none (some 0) (some 0) []] 0 0 10000 =
      [mkTextPlace (RawPlace.mk (some "a") none none none (some 0) (some 0) [])
        "a" 0 0 (haversine_m 0 0 0 0)] := by
  unfold processTextResults
  rw [textLoop_far 0 0 10000 _ _ _ _ "a" 90 0 rfl (by simp) rfl rfl haversine_m_pole]
  rw [textLoop_keep 0 0 10000 _ _ _ _ "a" 0 0 rfl (by simp) rfl rfl
    (by rw [haversine_m_self]; norm_num)]
  show List.mergeSort [_] _ = _
  rw [List.mergeSort_singleton]

/-- C8 (amended): in the text-query strategy a raw entry reaches the
canonical list only if it has a truthy identity key and both coordinates; in
the tiled strategy a raw entry reaches the canonical list only if it has a
truthy identity key, but an entry lacking coordinates is retained with null
coordinates rather than excluded; and with well-formed page statuses the
tiled collection returns normally (malformed entries never raise). -/
theorem C8_malformed_entries (raw : List RawPlace) (c_lat c_lon fr : ℝ)
    (tiles : List (List RawPlace)) (streams : List (Nat → PageResponse))
    (maxPages : Nat) :
    (∀ p ∈ processTextResults raw c_lat c_lon fr,
      p.place_id ≠ "" ∧ ∃ r ∈ raw, r.place_id = some p.place_id ∧
        r.geo_lat = some p.lat ∧ r.geo_lng = some p.lon) ∧
    (∀ p ∈ collect_merge tiles,
      p.place_id ≠ "" ∧ ∃ r ∈ tiles.flatten, r.place_id = some p.place_id) ∧
    ((∀ t ∈ streams, ∀ i, goodStatus ((t : Nat → PageResponse) i).status) →
      ∃ out, collect_places_run streams maxPages = .ok out) := by
  refine ⟨?_, ?_, ?_⟩
  · intro p hp
    obtain ⟨_, g2, _, _⟩ := textLoop_spec c_lat c_lon fr raw [] [] (by simp) (by simp)
    rcases g2 p ((processTextResults_perm raw c_lat c_lon fr).mem_iff.mp hp) with
      h | ⟨_, hne, r, hfirst, plat, plon, hlat, hlng, hpe⟩
    · simp at h
    · obtain ⟨hmem, hq1, _⟩ := firstSuchThat_mem hfirst
      refine ⟨hne, r, hmem, hq1, ?_, ?_⟩
      · rw [hpe, hlat]
        rfl
      · rw [hpe, hlng]
        rfl
  · intro p hp
    rw [collect_merge_eq_flatten] at hp
    obtain ⟨_, _, g3, _, _⟩ := nearbyLoop_spec tiles.flatten [] [] (by simp) (by simp)
    rcases g3 p hp with h | ⟨_, hne, r, hfirst, _⟩
    · simp at h
    · obtain ⟨hmem, hq⟩ := firstSuchThat_mem hfirst
      exact ⟨hne, r, hmem, hq⟩
  · intro hgood
    cases hres : collect_places_run streams maxPages with
    | ok out => exact ⟨out, rfl⟩
    | error e =>
      obtain ⟨t, ht, hte⟩ :=
        collect_places_error_val maxPages streams [] [] e hres
      obtain ⟨k, _, _, hbad, _⟩ :=
        paginate_go_error_spec t maxPages (maxPages - 0) 0 [] rfl e hte
      exact absurd (hgood t ht k) hbad

/-- Witness for C8 at a concrete raw entry and an all-good response stream. -/
theorem C8_malformed_entries_witness :
    (∀ t ∈ [fun _ : Nat => PageResponse.mk (some "OK") none
        [RawPlace.mk none none none none none none []] none],
      ∀ i : Nat, goodStatus ((t : Nat → PageResponse) i).status) ∧
    ∃ out, collect_places_run
        [fun _ : Nat => PageResponse.mk (some "OK") none
          [RawPlace.mk none none none none none none []] none] 3 = .ok out := by
  have hgood : ∀ t ∈ [fun _ : Nat => PageResponse.mk (some "OK") none
      [RawPlace.mk none none none none none none []] none],
      ∀ i : Nat, goodStatus ((t : Nat → PageResponse) i).status := by
    intro t ht i
    rw [List.mem_singleton] at ht
    subst ht
    exact .inl rfl
  exact ⟨hgood,
    (C8_malformed_entries [] 0 0 0 [] _ 3).2.2 hgood⟩

/-- Counterexample to C8 as stated: in the tiled strategy a raw entry with a
truthy place_id but no coordinates is not excluded — it reaches the
canonical list with null coordinates. -/
theorem C8_counterexample_tiled_keeps_missing_coords :
    collect_merge [[RawPlace.mk (some "x") none none none none none []]] =
      [Place.mk "x" none none none none ""] ∧
    ∃ p ∈ collect_merge [[RawPlace.mk (some "x") none none none none none []]],
      p.lat = none ∧ p.lon = none := by
  have h : collect_merge [[RawPlace.mk (some "x") none none none none none []]] =
      [Place.mk "x" none none none none ""] := by
    show (nearbyLoop [RawPlace.mk (some "x") none none none none none []] [] []).2 = _
    rw [nearbyLoop_keep _ _ _ _ "x" rfl (by simp)]
    rfl
  exact ⟨h, Place.mk "x" none none none none "", by rw [h]; simp, rfl, rfl⟩

/-- C1 (amended): the tile-cap radius is the minimum of the hard API ceiling
and the safe tile radius; the Geo Coverage mode of `app.py` sends
`int(min(userRadius, tileCapRadius))` — the integer truncation of the
claimed value — as the per-tile radius, while `run` in `src/pipeline.py`
sends `tileCapRadius` itself, independent of the user-requested radius. -/
theorem C1_per_tile_radius (s : Settings) (u : ℝ) :
    run_tile_radius_m s = tileCapRadius s ∧
    app_search_radius_m s u = ⌊min u (tileCapRadius s)⌋ ∧
    (app_search_radius_m s u : ℝ) ≤ min u (tileCapRadius s) ∧
    min u (tileCapRadius s) < app_search_radius_m s u + 1 := by
  have hcap : tileCapRadius s = min s.tile_radius_m s.max_nearby_radius_m :=
    min_comm _ _
  refine ⟨hcap.symm, by rw [app_search_radius_m, hcap], ?_, ?_⟩
  · rw [app_search_radius_m, hcap]
    exact Int.floor_le _
  · rw [app_search_radius_m, hcap]
    push_cast
    exact Int.lt_floor_add_one _

/-- Counterexample to C1 as stated: with the default settings and a
user-requested radius of 10 miles (16093.44 m), the radius `run` in
`src/pipeline.py` passes to the tiled collector is the 40000 m tile cap,
not `min(userRadius, tileCapRadius) = 16093.44 m`. -/
theorem C1_counterexample_pipeline_ignores_user_radius :
    run_tile_radius_m defaultSettings ≠
      min (miles_to_meters 10) (tileCapRadius defaultSettings) := by
  unfold run_tile_radius_m defaultSettings tileCapRadius miles_to_meters
  norm_num [min_def]

/-- C9: when the caller-supplied true-center/true-radius re-filter of the
Geo Coverage mode (modelled from the spec, see `collect_places_filtered`)
succeeds, every returned entry has coordinates and lies within the true
radius of the true center by straight-line (haversine) distance, and the
result is exactly the merged canonical list with the farther (or
coordinate-less) entries dropped after merging. -/
theorem C9_true_radius_refilter (tiles : List (Nat → PageResponse)) (maxPages : Nat)
    (f_lat f_lon fr : ℝ) (out : List Place)
    (h : collect_places_filtered tiles maxPages f_lat f_lon fr = .ok out) :
    (∀ p ∈ out, ∃ plat plon, p.lat = some plat ∧ p.lon = some plon ∧
      haversine_m f_lat f_lon plat plon ≤ fr) ∧
    ∃ merged, collect_places_run tiles maxPages = .ok merged ∧
      (∀ p ∈ out, p ∈ merged) ∧
      (∀ p ∈ merged, ∀ plat plon, p.lat = some plat → p.lon = some plon →
        haversine_m f_lat f_lon plat plon > fr → p ∉ out) := by
  unfold collect_places_filtered at h
  cases hrun : collect_places_run tiles maxPages with
  | error e =>
    rw [hrun] at h
    cases h
  | ok merged =>
    rw [hrun] at h
    simp only [Except.map, Except.ok.injEq] at h
    subst h
    constructor
    · intro p hp
      rw [List.mem_filter] at hp
      obtain ⟨_, hpred⟩ := hp
      cases hlat : p.lat with
      | none => rw [hlat] at hpred; cases hpred
      | some plat =>
        cases hlng : p.lon with
        | none => rw [hlat, hlng] at hpred; cases hpred
        | some plon =>
          rw [hlat, hlng] at hpred
          exact ⟨plat, plon, rfl, rfl, of_decide_eq_true hpred⟩
    · refine ⟨merged, rfl, ?_, ?_⟩
      · intro p hp
        exact (List.mem_filter.mp hp).1
      · intro p _ plat plon hlat hlng hfar hpo
        have hpred := (List.mem_filter.mp hpo).2
        rw [hlat, hlng] at hpred
        exact absurd (of_decide_eq_true hpred) (not_le.mpr hfar)

/-- Witness for C9: one tile whose single page returns one result at the
filter center; the filtered collection succeeds and the kept entry is
within the radius. -/
theorem C9_true_radius_refilter_witness :
    collect_places_filtered
        [fun _ : Nat => PageResponse.mk (some "OK") none
          [RawPlace.mk (some "a") none none none (some 0) (some 0) []] none]
        3 0 0 10000 =
      .ok [mkPlace (RawPlace.mk (some "a") none none none (some 0) (some 0) []) "a"] ∧
    ∀ p ∈ [mkPlace (RawPlace.mk (some "a") none none none (some 0) (some 0) []) "a"],
      ∃ plat plon, p.lat = some plat ∧ p.lon = some plon ∧
        haversine_m 0 0 plat plon ≤ 10000 := by
  have h1 : nearby_search_tile
      (fun _ : Nat => PageResponse.mk (some "OK") none
        [RawPlace.mk (some "a") none none none (some 0) (some 0) []] none) 3 =
      (.ok [RawPlace.mk (some "a") none none none (some 0) (some 0) []], 1) := by
    show paginate_go _ 3 0 [] = _
    rw [paginate_go_stop _ 3 0 [] (.inl rfl) (by simp [tokenTruthy])]
    rfl
  have h2 : collect_places_run
      [fun _ : Nat => PageResponse.mk (some "OK") none
        [RawPlace.mk (some "a") none none none (some 0) (some 0) []] none] 3 =
      .ok [mkPlace (RawPlace.mk (some "a") none none none (some 0) (some 0) []) "a"] := by
    show collect_places _ 3 [] [] = _
    unfold collect_places
    rw [h1]
    show collect_places [] 3 _ _ = _
    rw [nearbyLoop_keep _ _ _ _ "a" rfl (by simp)]
    rfl
  have h3 : collect_places_filtered
      [fun _ : Nat => PageResponse.mk (some "OK") none
        [RawPlace.mk (some "a") none none none (some 0) (some 0) []] none]
      3 0 0 10000 =
      .ok [mkPlace (RawPlace.mk (some "a") none none none (some 0) (some 0) []) "a"] := by
    unfold collect_places_filtered
    rw [h2]
    simp only [Except.map, Except.ok.injEq]
    rw [List.filter_cons_of_pos]
    · rfl
    · show decide (haversine_m 0 0 0 0 ≤ 10000) = true
      exact decide_eq_true (by rw [haversine_m_self]; norm_num)
  exact ⟨h3, (C9_true_radius_refilter _ 3 0 0 10000 _ h3).1⟩

/-- C10: for `tile_radius_m > 0` both grid steps of `generate_tile_centers`
are strictly positive (the longitude conversion's `max` floor on `cos`
keeps its denominator positive at every latitude), and a strictly positive
step reaches past any bound in finitely many iterations, so both `while`
loops terminate; with `tile_radius_m = 0` the derived latitude step is 0
and the loops make no progress. -/
theorem C10_grid_termination (tile_radius_m lat : ℝ) (ht : 0 < tile_radius_m) :
    0 < meters_to_lat_deg (tile_radius_m * 1.5) ∧
    0 < meters_to_lon_deg (tile_radius_m * 1.5) lat ∧
    (∀ lo hi step : ℝ, 0 < step → ∃ n : ℕ, hi < lo + n * step) ∧
    meters_to_lat_deg ((0 : ℝ) * 1.5) = 0 := by
  have hR : (0 : ℝ) < EARTH_RADIUS_M := by unfold EARTH_RADIUS_M; norm_num
  have hpi : (0 : ℝ) < 180 / π := div_pos (by norm_num) Real.pi_pos
  have hm : (0 : ℝ) < tile_radius_m * 1.5 := by linarith
  refine ⟨?_, ?_, ?_, ?_⟩
  · exact mul_pos (div_pos hm hR) hpi
  · refine mul_pos (div_pos hm (mul_pos hR ?_)) hpi
    exact lt_of_lt_of_le (by norm_num) (le_max_left _ _)
  · intro lo hi step hs
    obtain ⟨n, hn⟩ := exists_nat_gt ((hi - lo) / step)
    refine ⟨n, ?_⟩
    rw [div_lt_iff hs] at hn
    linarith
  · unfold meters_to_lat_deg
    norm_num

/-- Witness for C10 at `tile_radius_m = 1`, `lat = 0`. -/
theorem C10_grid_termination_witness :
    (0 : ℝ) < 1 ∧ 0 < meters_to_lat_deg ((1 : ℝ) * 1.5) :=
  ⟨by norm_num, (C10_grid_termination 1 0 (by norm_num)).1⟩
